import Mathlib

/-!
# Verification of the booking-api seat-reservation core

Shallow embedding of the repository's seat-reservation engine:

* `src/services/booking.service.ts` — `BookingService.createBooking`,
  `BookingService.cancelBooking`, the typed error classes and the
  `BookingResult` projection;
* `src/services/notification.service.ts` — `NotificationService.notify`;
* `src/schemas/booking.schema.ts` — `CreateBookingSchema` (Zod);
* `src/routes/booking.routes.ts` — the `POST /bookings` handler.

The PostgreSQL store is modelled as an explicit state (`DBState`): an
association list of events keyed by id and a list of bookings.  A Prisma
`$transaction` whose callback throws rolls back, so each service call is a
function `DBState → result × DBState` that returns the *unchanged* input
state on the error path.  Machine integers (integer columns, JSON numbers
validated to be integers) are modelled as `Int`; the raw JSON numbers seen
by the Zod schema are modelled as `Rat` so that the `.int()` check is a
real check.  Row ids generated by the store (cuid) are opaque unique
tokens, modelled as `Nat` drawn from a fresh-id counter.  `FOR UPDATE`
row locks serialize concurrent units; concurrency is therefore modelled as
sequential execution in lock-acquisition order (spec §5).
-/

/-- An `events` row: `name`, `total_seats`, `available_seats`
(`prisma/schema.prisma`; only the fields the core reads). -/
structure Event where
  name : String
  totalSeats : Int
  availableSeats : Int
deriving DecidableEq, Repr

/-- One entry of `CreateBookingInput.items` (and one `booking_line_items`
row): an event id and a quantity. -/
structure BookingItem where
  eventId : String
  quantity : Int
deriving DecidableEq, Repr

/-- `BookingStatus` enum from the Prisma schema. -/
inductive BookingStatus where
  | CONFIRMED
  | CANCELLED
deriving DecidableEq, Repr

/-- A `bookings` row together with its line items. -/
structure Booking where
  id : Nat
  customerEmail : String
  status : BookingStatus
  createdAt : Nat
  idempotencyKey : Option String
  items : List BookingItem
deriving DecidableEq, Repr

/-- The database state: events keyed by id, bookings, and the store's
fresh-id source for generated booking ids. -/
structure DBState where
  events : List (String × Event)
  bookings : List Booking
  nextId : Nat
deriving DecidableEq, Repr

/-- The typed error classes of `booking.service.ts`
(`EventNotFoundError`, `InsufficientSeatsError`, `BookingNotFoundError`,
`BookingAlreadyCancelledError`), with their carried fields. -/
inductive BookingError where
  | EventNotFound (eventId : String)
  | InsufficientSeats (eventId : String) (requested : Int) (available : Int)
  | BookingNotFound (bookingId : Nat)
  | BookingAlreadyCancelled (bookingId : Nat)
deriving DecidableEq, Repr

/-- One entry of `BookingResult.items`. -/
structure ResultItem where
  eventId : String
  eventName : String
  quantity : Int
deriving DecidableEq, Repr

/-- The `BookingResult` interface of `booking.service.ts`. -/
structure BookingResult where
  id : Nat
  customerEmail : String
  status : BookingStatus
  createdAt : Nat
  items : List ResultItem
  totalTickets : Int
deriving DecidableEq, Repr

/-- `CreateBookingInput` (the parsed schema output consumed by the
service): customer email and items. -/
structure CreateBookingInput where
  customerEmail : String
  items : List BookingItem
deriving DecidableEq, Repr

/-- `SELECT ... FROM events WHERE id = eid` — first row with the given key
(primary keys are unique, so at most one row matches). -/
def findEvent (events : List (String × Event)) (eid : String) : Option Event :=
  (events.find? (fun p => p.1 == eid)).map (fun p => p.2)

/-- `UPDATE events SET available_seats = f(available_seats) WHERE id = eid`. -/
def updateSeats (events : List (String × Event)) (eid : String) (f : Int → Int) :
    List (String × Event) :=
  events.map (fun p =>
    if p.1 == eid then (p.1, { p.2 with availableSeats := f p.2.availableSeats }) else p)

/-- The per-event record accumulated by phase 1 of `createBooking`
(`eventDetails` in the source). -/
structure EventDetail where
  id : String
  name : String
  availableSeats : Int
  requestedQuantity : Int
deriving DecidableEq, Repr

/-- Phase 1 of `createBooking`: for each item in submission order, lock and
read the event row; throw `EventNotFoundError` if absent, throw
`InsufficientSeatsError eventId requested available` if
`available_seats < quantity`; otherwise record the detail.  No row is
mutated in this phase. -/
def validateItems (s : DBState) : List BookingItem → Except BookingError (List EventDetail)
  | [] => .ok []
  | item :: rest =>
    match findEvent s.events item.eventId with
    | none => .error (.EventNotFound item.eventId)
    | some ev =>
      if ev.availableSeats < item.quantity then
        .error (.InsufficientSeats item.eventId item.quantity ev.availableSeats)
      else
        match validateItems s rest with
        | .error e => .error e
        | .ok ds => .ok (⟨item.eventId, ev.name, ev.availableSeats, item.quantity⟩ :: ds)

/-- Phase 2 of `createBooking`: decrement each listed event's
`available_seats` by its requested quantity. -/
def decrementAll (events : List (String × Event)) (details : List EventDetail) :
    List (String × Event) :=
  details.foldl (fun es d => updateSeats es d.id (fun a => a - d.requestedQuantity)) events

/-- The cancel path's restoration loop: increment each line item's event
`available_seats` by the item's quantity. -/
def restoreAll (events : List (String × Event)) (items : List BookingItem) :
    List (String × Event) :=
  items.foldl (fun es it => updateSeats es it.eventId (fun a => a + it.quantity)) events

/-- `items.reduce((sum, item) => sum + item.quantity, 0)`. -/
def totalQty (items : List BookingItem) : Int :=
  items.foldl (fun acc it => acc + it.quantity) 0

/-- The projection the service builds from a stored booking plus its
events (`include: { items: { include: { event: true } } }`): used by the
idempotency short-circuit, `cancelBooking` and `getBooking`.  The foreign
key guarantees each line item's event row exists; a missing row projects
the empty name. -/
def bookingProjection (s : DBState) (b : Booking) : BookingResult :=
  { id := b.id
    customerEmail := b.customerEmail
    status := b.status
    createdAt := b.createdAt
    items := b.items.map (fun it =>
      ⟨it.eventId, ((findEvent s.events it.eventId).map (fun ev => ev.name)).getD "", it.quantity⟩)
    totalTickets := totalQty b.items }

/-- Phase 4's `bookingResult`: pairs the i-th validated event detail with
the i-th stored line item by index
(`result.eventDetails.map((detail, i) => ... result.booking.items[i].quantity)`). -/
def mkResult (details : List EventDetail) (b : Booking) : BookingResult :=
  { id := b.id
    customerEmail := b.customerEmail
    status := b.status
    createdAt := b.createdAt
    items := (details.zip b.items).map (fun p => ⟨p.1.id, p.1.name, p.2.quantity⟩)
    totalTickets := totalQty b.items }

/-- Phase 3's `booking.create`: a fresh row (id from the store's fresh-id
source) with status CONFIRMED (the Prisma schema default), the idempotency
key when supplied, and one line item per input item. -/
def newBooking (s : DBState) (input : CreateBookingInput)
    (idempotencyKey : Option String) (now : Nat) : Booking :=
  { id := s.nextId
    customerEmail := input.customerEmail
    status := .CONFIRMED
    createdAt := now
    idempotencyKey := idempotencyKey
    items := input.items }

/-- The `$transaction` body of `createBooking` (phases 1–3) plus the
rollback-on-error semantics of `prisma.$transaction`: a thrown error
discards every effect, so the input state is returned unchanged. -/
def createBookingTx (s : DBState) (input : CreateBookingInput)
    (idempotencyKey : Option String) (now : Nat) :
    Except BookingError BookingResult × DBState :=
  match validateItems s input.items with
  | .error e => (.error e, s)
  | .ok details =>
    let booking := newBooking s input idempotencyKey now
    (.ok (mkResult details booking),
      { events := decrementAll s.events details
        bookings := booking :: s.bookings
        nextId := s.nextId + 1 })

/-- `BookingService.createBooking input idempotencyKey`, as a transition on
the store state.  Step 0: the idempotency short-circuit (return the
existing booking's projection, untouched state).  Otherwise one atomic
transaction: validate all items (phase 1), decrement seats (phase 2),
create the booking row with status CONFIRMED and its line items (phase 3).
`now` stands for the row-creation timestamp. -/
def createBooking (s : DBState) (input : CreateBookingInput)
    (idempotencyKey : Option String) (now : Nat) :
    Except BookingError BookingResult × DBState :=
  match idempotencyKey with
  | some k =>
    match s.bookings.find? (fun b => b.idempotencyKey == some k) with
    | some existing => (.ok (bookingProjection s existing), s)
    | none => createBookingTx s input (some k) now
  | none => createBookingTx s input none now

/-- `BookingService.cancelBooking bookingId`: one atomic transaction — find
the booking (throw `BookingNotFoundError` if absent, throw
`BookingAlreadyCancelledError` if its status is already CANCELLED), restore
each line item's seats, flip the status to CANCELLED, and return the
updated projection.  A thrown error rolls back: unchanged state. -/
def cancelBooking (s : DBState) (bookingId : Nat) :
    Except BookingError BookingResult × DBState :=
  match s.bookings.find? (fun b => b.id == bookingId) with
  | none => (.error (.BookingNotFound bookingId), s)
  | some b =>
    if b.status = .CANCELLED then
      (.error (.BookingAlreadyCancelled bookingId), s)
    else
      let events' := restoreAll s.events b.items
      let updated : Booking := { b with status := .CANCELLED }
      let s' : DBState :=
        { events := events'
          bookings := s.bookings.map (fun x => if x.id == bookingId then updated else x)
          nextId := s.nextId }
      (.ok (bookingProjection s' updated), s')

/-- `BookingNotification` (`notification.service.ts`): the payload handed
to the channel. -/
structure BookingNotification where
  bookingId : Nat
  customerEmail : String
  items : List (String × Int)
  totalTickets : Int
  createdAt : Nat
deriving DecidableEq, Repr

/-- A `NotificationChannel`: `send` either succeeds or throws (modelled as
`Except` with an error message). -/
def NotificationChannel : Type := BookingNotification → Except String Unit

/-- `NotificationService.notify`: `await channel.send(notification)` inside
`try/catch`; a thrown error is logged and never propagated, so `notify`
always resolves. -/
def notifyService (channel : NotificationChannel) (n : BookingNotification) :
    Except String Unit :=
  match channel n with
  | .ok _ => .ok ()
  | .error _ => .ok ()

/-- The notification payload phase 4 of `createBooking` builds from the
`BookingResult`. -/
def notificationOf (r : BookingResult) : BookingNotification :=
  { bookingId := r.id
    customerEmail := r.customerEmail
    items := r.items.map (fun i => (i.eventName, i.quantity))
    totalTickets := r.totalTickets
    createdAt := r.createdAt }

/-- `createBooking` including its phase 4: after the transaction commits, a
best-effort notification is dispatched through the channel (its outcome is
discarded); the result and state of the committed transaction are returned
as-is. -/
def createBookingAndNotify (channel : NotificationChannel) (s : DBState)
    (input : CreateBookingInput) (idempotencyKey : Option String) (now : Nat) :
    Except BookingError BookingResult × DBState :=
  match createBooking s input idempotencyKey now with
  | (.error e, s') => (.error e, s')
  | (.ok r, s') =>
    match notifyService channel (notificationOf r) with
    | .ok _ => (.ok r, s')
    | .error _ => (.ok r, s')

/-- A raw item as the Zod schema sees it: `eventId` a string, `quantity` a
JSON number (a rational, before the `.int()` check). -/
structure RawItem where
  eventId : String
  quantity : Rat
deriving DecidableEq, Repr

/-- A raw `POST /bookings` body. -/
structure RawRequest where
  customerEmail : String
  items : List RawItem
deriving DecidableEq, Repr

/-- `BookingItemSchema`: `eventId` must pass the uuid validator, `quantity`
must be an integer with `1 ≤ quantity ≤ 3`.  Zod's string `uuid()`
primitive is library code, abstracted as the `uuidOk` parameter. -/
def bookingItemCheck (uuidOk : String → Bool) (it : RawItem) : Bool :=
  uuidOk it.eventId && it.quantity.isInt && decide (1 ≤ it.quantity) && decide (it.quantity ≤ 3)

/-- `CreateBookingSchema`: valid email, 1–20 items each passing
`BookingItemSchema`, and the `.refine` duplicate check
`new Set(eventIds).size === eventIds.length` (modelled with `List.dedup`).
Zod's string `email()` primitive is library code, abstracted as the
`emailOk` parameter. -/
def createBookingSchemaCheck (emailOk uuidOk : String → Bool) (r : RawRequest) : Bool :=
  emailOk r.customerEmail
    && decide (1 ≤ r.items.length) && decide (r.items.length ≤ 20)
    && r.items.all (bookingItemCheck uuidOk)
    && decide ((r.items.map (fun it => it.eventId)).dedup.length
        = (r.items.map (fun it => it.eventId)).length)

/-- The parsed data the route passes to the service: quantities are known
integers after validation. -/
def parsedInput (r : RawRequest) : CreateBookingInput :=
  { customerEmail := r.customerEmail
    items := r.items.map (fun it => ⟨it.eventId, ⌊it.quantity⌋⟩) }

/-- The three reply shapes of the `POST /bookings` handler: 400 with
validation issues, 201 with the booking, or a mapped domain error
(404 EventNotFound / 409 InsufficientSeats). -/
inductive RouteResponse where
  | validationError
  | created (r : BookingResult)
  | domainError (e : BookingError)
deriving DecidableEq, Repr

/-- The `POST /bookings` handler (`booking.routes.ts`): `safeParse` the
body against `CreateBookingSchema`; on failure reply 400 without touching
the service; on success call `createBooking(parsed.data)` (the route
supplies no idempotency key) and map the outcome. -/
def postBookings (emailOk uuidOk : String → Bool) (req : RawRequest)
    (s : DBState) (now : Nat) : RouteResponse × DBState :=
  if createBookingSchemaCheck emailOk uuidOk req then
    match createBooking s (parsedInput req) none now with
    | (.ok r, s') => (.created r, s')
    | (.error e, s') => (.domainError e, s')
  else
    (.validationError, s)

/-- One concurrent batch, serialized in lock-acquisition order (spec §5:
row locks totally order units contending on an event): each request is a
keyless `createBooking`, observing the state left by the units ahead of
it. -/
def runRequests (s : DBState) (reqs : List CreateBookingInput) (now : Nat) :
    List (Except BookingError BookingResult) × DBState :=
  match reqs with
  | [] => ([], s)
  | r :: rest =>
    let p := createBooking s r none now
    let q := runRequests p.2 rest now
    (p.1 :: q.1, q.2)

/-- An operation of the core API surface that mutates the ledger. -/
inductive Op where
  | create (input : CreateBookingInput) (idempotencyKey : Option String) (now : Nat)
  | cancel (bookingId : Nat)
deriving DecidableEq, Repr

/-- The state left by one operation (results discarded). -/
def applyOp (s : DBState) : Op → DBState
  | .create input key now => (createBooking s input key now).2
  | .cancel bid => (cancelBooking s bid).2

/-- The state left by a sequence of operations. -/
def runOps (s : DBState) (ops : List Op) : DBState :=
  ops.foldl applyOp s

/-- The schema-layer preconditions the engine may assume (spec §4.1):
items non-empty, each quantity an integer in [1,3], no duplicate eventId. -/
def SchemaPre (input : CreateBookingInput) : Prop :=
  input.items ≠ []
    ∧ (∀ it ∈ input.items, 1 ≤ it.quantity ∧ it.quantity ≤ 3)
    ∧ (input.items.map (fun it => it.eventId)).Nodup

/-- Validity of one operation's inputs: creates carry schema-valid input,
cancels are unrestricted. -/
def OpValid : Op → Prop
  | .create input _ _ => SchemaPre input
  | .cancel _ => True

/-- Net quantity an item list requests for one event. -/
def sumQtyFor (eid : String) (items : List BookingItem) : Int :=
  (items.map (fun it => if it.eventId == eid then it.quantity else 0)).sum

/-- Net quantity a detail list decrements from one event. -/
def sumReqFor (eid : String) (details : List EventDetail) : Int :=
  (details.map (fun d => if d.id == eid then d.requestedQuantity else 0)).sum

/-- Seats held by CONFIRMED bookings against one event. -/
def confirmedQty (bookings : List Booking) (eid : String) : Int :=
  (bookings.map (fun b => if b.status = .CONFIRMED then sumQtyFor eid b.items else 0)).sum

/-- The observable seat invariant of the spec: for every event row,
`0 ≤ availableSeats ≤ totalSeats`. -/
def SeatInv (s : DBState) : Prop :=
  ∀ p ∈ s.events, 0 ≤ p.2.availableSeats ∧ p.2.availableSeats ≤ p.2.totalSeats

/-- The ledger invariant: the seat invariant strengthened with the claim's
precondition that every CONFIRMED booking's decrements are recorded in the
ledger (`availableSeats + confirmedQty ≤ totalSeats`), together with the
store-enforced well-formedness the accounting rests on: event primary keys
are unique, booking ids are unique and below the fresh-id counter, and
stored line-item quantities respect the schema bounds. -/
def LedgerInv (s : DBState) : Prop :=
  (∀ p ∈ s.events,
      0 ≤ p.2.availableSeats
        ∧ p.2.availableSeats + confirmedQty s.bookings p.1 ≤ p.2.totalSeats)
    ∧ (s.events.map (fun p => p.1)).Nodup
    ∧ (∀ b ∈ s.bookings, ∀ it ∈ b.items, 1 ≤ it.quantity ∧ it.quantity ≤ 3)
    ∧ (s.bookings.map (fun b => b.id)).Nodup
    ∧ (∀ b ∈ s.bookings, b.id < s.nextId)

/-! ## Store-level lemmas -/

theorem findEvent_cons (p : String × Event) (es : List (String × Event)) (x : String) :
    findEvent (p :: es) x = if p.1 = x then some p.2 else findEvent es x := by
  by_cases h : p.1 = x
  · have hb : (p.1 == x) = true := by simp [h]
    simp [findEvent, List.find?, hb, h]
  · have hb : (p.1 == x) = false := by simp [h]
    simp [findEvent, List.find?, hb, h]

theorem updateSeats_cons (p : String × Event) (es : List (String × Event))
    (eid : String) (f : Int → Int) :
    updateSeats (p :: es) eid f =
      (if p.1 = eid then (p.1, { p.2 with availableSeats := f p.2.availableSeats }) else p)
        :: updateSeats es eid f := by
  by_cases h : p.1 = eid <;> simp [updateSeats, h]

theorem updateSeats_keys (es : List (String × Event)) (eid : String) (f : Int → Int) :
    (updateSeats es eid f).map (fun p => p.1) = es.map (fun p => p.1) := by
  induction es with
  | nil => rfl
  | cons p es ih =>
    rw [updateSeats_cons, List.map_cons, List.map_cons, ih]
    by_cases h : p.1 = eid <;> simp [h]

theorem findEvent_updateSeats (es : List (String × Event)) (eid : String)
    (f : Int → Int) (x : String) :
    findEvent (updateSeats es eid f) x =
      if eid = x then
        (findEvent es x).map (fun ev => { ev with availableSeats := f ev.availableSeats })
      else findEvent es x := by
  induction es with
  | nil => by_cases h : eid = x <;> simp [findEvent, updateSeats, h]
  | cons p es ih =>
    rw [updateSeats_cons]
    by_cases hpe : p.1 = eid
    · rw [if_pos hpe]
      by_cases hpx : p.1 = x
      · have hex : eid = x := hpe ▸ hpx
        rw [findEvent_cons, findEvent_cons]
        simp [hpx, hex]
      · have hex : ¬ eid = x := fun he => hpx (hpe.trans he)
        rw [findEvent_cons, findEvent_cons, if_neg hpx, if_neg hpx, ih, if_neg hex]
    · rw [if_neg hpe]
      by_cases hpx : p.1 = x
      · have hex : ¬ eid = x := fun he => hpe (by rw [hpx, he])
        rw [findEvent_cons, findEvent_cons]
        simp [hpx, hex]
      · rw [findEvent_cons, findEvent_cons, if_neg hpx, if_neg hpx, ih]

theorem sumReqFor_cons (x : String) (d : EventDetail) (ds : List EventDetail) :
    sumReqFor x (d :: ds) =
      (if d.id = x then d.requestedQuantity else 0) + sumReqFor x ds := by
  by_cases h : d.id = x <;> simp [sumReqFor, h]

theorem sumQtyFor_cons (x : String) (it : BookingItem) (items : List BookingItem) :
    sumQtyFor x (it :: items) =
      (if it.eventId = x then it.quantity else 0) + sumQtyFor x items := by
  by_cases h : it.eventId = x <;> simp [sumQtyFor, h]

theorem findEvent_decrementAll (ds : List EventDetail) (es : List (String × Event))
    (x : String) :
    findEvent (decrementAll es ds) x =
      (findEvent es x).map
        (fun ev => { ev with availableSeats := ev.availableSeats - sumReqFor x ds }) := by
  induction ds generalizing es with
  | nil =>
    cases h : findEvent es x <;> simp [decrementAll, sumReqFor, h]
  | cons d ds ih =>
    have hstep : decrementAll es (d :: ds) =
        decrementAll (updateSeats es d.id (fun a => a - d.requestedQuantity)) ds := rfl
    rw [hstep, ih, findEvent_updateSeats, sumReqFor_cons]
    by_cases h : d.id = x
    · rw [if_pos h, if_pos h]
      cases hf : findEvent es x <;> simp [hf]
      omega
    · rw [if_neg h, if_neg h]
      cases hf : findEvent es x <;> simp [hf]

theorem findEvent_restoreAll (items : List BookingItem) (es : List (String × Event))
    (x : String) :
    findEvent (restoreAll es items) x =
      (findEvent es x).map
        (fun ev => { ev with availableSeats := ev.availableSeats + sumQtyFor x items }) := by
  induction items generalizing es with
  | nil =>
    cases h : findEvent es x <;> simp [restoreAll, sumQtyFor, h]
  | cons it items ih =>
    have hstep : restoreAll es (it :: items) =
        restoreAll (updateSeats es it.eventId (fun a => a + it.quantity)) items := rfl
    rw [hstep, ih, findEvent_updateSeats, sumQtyFor_cons]
    by_cases h : it.eventId = x
    · rw [if_pos h, if_pos h]
      cases hf : findEvent es x <;> simp [hf]
      omega
    · rw [if_neg h, if_neg h]
      cases hf : findEvent es x <;> simp [hf]

theorem decrementAll_keys (ds : List EventDetail) (es : List (String × Event)) :
    (decrementAll es ds).map (fun p => p.1) = es.map (fun p => p.1) := by
  induction ds generalizing es with
  | nil => rfl
  | cons d ds ih =>
    have hstep : decrementAll es (d :: ds) =
        decrementAll (updateSeats es d.id (fun a => a - d.requestedQuantity)) ds := rfl
    rw [hstep, ih, updateSeats_keys]

theorem restoreAll_keys (items : List BookingItem) (es : List (String × Event)) :
    (restoreAll es items).map (fun p => p.1) = es.map (fun p => p.1) := by
  induction items generalizing es with
  | nil => rfl
  | cons it items ih =>
    have hstep : restoreAll es (it :: items) =
        restoreAll (updateSeats es it.eventId (fun a => a + it.quantity)) items := rfl
    rw [hstep, ih, updateSeats_keys]

theorem mem_of_findEvent (es : List (String × Event)) (x : String) (ev : Event)
    (h : findEvent es x = some ev) : (x, ev) ∈ es := by
  induction es with
  | nil => simp [findEvent] at h
  | cons p es ih =>
    rw [findEvent_cons] at h
    by_cases hp : p.1 = x
    · rw [if_pos hp, Option.some.injEq] at h
      exact List.mem_cons.mpr (Or.inl (by rw [← hp, ← h]))
    · rw [if_neg hp] at h
      exact List.mem_cons_of_mem _ (ih h)

theorem findEvent_of_mem (es : List (String × Event)) (x : String) (ev : Event)
    (hnd : (es.map (fun p => p.1)).Nodup) (h : (x, ev) ∈ es) :
    findEvent es x = some ev := by
  induction es with
  | nil => simp at h
  | cons p es ih =>
    simp only [List.map_cons, List.nodup_cons] at hnd
    rw [findEvent_cons]
    rcases List.mem_cons.mp h with heq | hmem
    · rw [← heq]
      simp
    · have hx : x ∈ es.map (fun p => p.1) := List.mem_map.mpr ⟨(x, ev), hmem, rfl⟩
      by_cases hp : p.1 = x
      · exact absurd (hp ▸ hx) hnd.1
      · rw [if_neg hp]
        exact ih hnd.2 hmem

/-! ## Validation-phase lemmas -/

/-- An item passes phase 1: its event exists and has enough seats. -/
def itemPasses (s : DBState) (it : BookingItem) : Prop :=
  ∃ ev, findEvent s.events it.eventId = some ev ∧ ¬ ev.availableSeats < it.quantity

/-- An item is offending, and `e` is the error phase 1 raises for it:
`EventNotFound` carrying its eventId when the event is absent,
`InsufficientSeats` carrying its eventId, its requested quantity and the
observed availability when the seats run short. -/
def itemFails (s : DBState) (it : BookingItem) (e : BookingError) : Prop :=
  (findEvent s.events it.eventId = none ∧ e = .EventNotFound it.eventId)
    ∨ ∃ ev, findEvent s.events it.eventId = some ev ∧ ev.availableSeats < it.quantity
        ∧ e = .InsufficientSeats it.eventId it.quantity ev.availableSeats

theorem validateItems_ok_cons {s : DBState} {it : BookingItem} {rest : List BookingItem}
    {ds : List EventDetail} (h : validateItems s (it :: rest) = .ok ds) :
    ∃ ev ds', findEvent s.events it.eventId = some ev
      ∧ ¬ ev.availableSeats < it.quantity
      ∧ validateItems s rest = .ok ds'
      ∧ ds = ⟨it.eventId, ev.name, ev.availableSeats, it.quantity⟩ :: ds' := by
  simp only [validateItems] at h
  split at h
  · exact absurd h (by simp)
  next ev heq =>
    split at h
    · exact absurd h (by simp)
    next hlt =>
      split at h
      · exact absurd h (by simp)
      next ds' heq2 =>
        refine ⟨ev, ds', heq, hlt, heq2, ?_⟩
        injection h with h'
        exact h'.symm

theorem validateItems_align {s : DBState} :
    ∀ {items : List BookingItem} {ds : List EventDetail},
      validateItems s items = .ok ds →
      ds.map (fun d => (d.id, d.requestedQuantity))
        = items.map (fun it => (it.eventId, it.quantity)) := by
  intro items
  induction items with
  | nil =>
    intro ds h
    simp only [validateItems, Except.ok.injEq] at h
    rw [← h]
    rfl
  | cons it rest ih =>
    intro ds h
    obtain ⟨ev, ds', _, _, hrest, hds⟩ := validateItems_ok_cons h
    subst hds
    simp [ih hrest]

theorem validateItems_sound {s : DBState} :
    ∀ {items : List BookingItem} {ds : List EventDetail},
      validateItems s items = .ok ds →
      ∀ d ∈ ds, ∃ ev, findEvent s.events d.id = some ev
        ∧ d.name = ev.name ∧ d.availableSeats = ev.availableSeats
        ∧ ¬ ev.availableSeats < d.requestedQuantity := by
  intro items
  induction items with
  | nil =>
    intro ds h
    simp only [validateItems, Except.ok.injEq] at h
    rw [← h]
    intro d hd
    simp at hd
  | cons it rest ih =>
    intro ds h
    obtain ⟨ev, ds', hfind, hlt, hrest, hds⟩ := validateItems_ok_cons h
    subst hds
    intro d hd
    rcases List.mem_cons.mp hd with heq | hmem
    · subst heq
      exact ⟨ev, hfind, rfl, rfl, hlt⟩
    · exact ih hrest d hmem

theorem validateItems_sumReq {s : DBState} :
    ∀ {items : List BookingItem} {ds : List EventDetail},
      validateItems s items = .ok ds →
      ∀ x, sumReqFor x ds = sumQtyFor x items := by
  intro items
  induction items with
  | nil =>
    intro ds h x
    simp only [validateItems, Except.ok.injEq] at h
    rw [← h]
    rfl
  | cons it rest ih =>
    intro ds h x
    obtain ⟨ev, ds', _, _, hrest, hds⟩ := validateItems_ok_cons h
    subst hds
    rw [sumReqFor_cons, sumQtyFor_cons, ih hrest]

theorem sumQtyFor_eq_zero {x : String} :
    ∀ {items : List BookingItem}, x ∉ items.map (fun it => it.eventId) →
      sumQtyFor x items = 0 := by
  intro items
  induction items with
  | nil => intro _; rfl
  | cons it rest ih =>
    intro h
    simp only [List.map_cons, List.mem_cons] at h
    push_neg at h
    rw [sumQtyFor_cons, if_neg (fun he => h.1 he.symm), ih h.2, add_zero]

theorem sumQtyFor_nonneg {x : String} {items : List BookingItem}
    (h : ∀ it ∈ items, 1 ≤ it.quantity) : 0 ≤ sumQtyFor x items := by
  induction items with
  | nil => simp [sumQtyFor]
  | cons it rest ih =>
    rw [sumQtyFor_cons]
    have h1 : 1 ≤ it.quantity := h it (List.mem_cons_self it rest)
    have h2 : 0 ≤ sumQtyFor x rest := ih (fun a ha => h a (List.mem_cons_of_mem _ ha))
    by_cases he : it.eventId = x
    · rw [if_pos he]; omega
    · rw [if_neg he]; omega

theorem validateItems_bound {s : DBState} :
    ∀ {items : List BookingItem} {ds : List EventDetail},
      validateItems s items = .ok ds →
      (items.map (fun it => it.eventId)).Nodup →
      ∀ x ev, findEvent s.events x = some ev → 0 ≤ ev.availableSeats →
        sumQtyFor x items ≤ ev.availableSeats := by
  intro items
  induction items with
  | nil =>
    intro ds _ _ x ev _ hav
    simpa [sumQtyFor] using hav
  | cons it rest ih =>
    intro ds h hnd x ev hfind hav
    obtain ⟨ev₀, ds', hfind₀, hlt₀, hrest, _⟩ := validateItems_ok_cons h
    simp only [List.map_cons, List.nodup_cons] at hnd
    rw [sumQtyFor_cons]
    by_cases hx : it.eventId = x
    · have hev : ev₀ = ev := by
        rw [hx] at hfind₀
        rw [hfind₀] at hfind
        exact Option.some.inj hfind
      subst hev
      have hz : sumQtyFor x rest = 0 := sumQtyFor_eq_zero (hx ▸ hnd.1)
      rw [if_pos hx, hz]
      omega
    · rw [if_neg hx, zero_add]
      exact ih hrest hnd.2 x ev hfind hav

theorem validateItems_ok_of_passes {s : DBState} :
    ∀ {items : List BookingItem}, (∀ it ∈ items, itemPasses s it) →
      ∃ ds, validateItems s items = .ok ds := by
  intro items
  induction items with
  | nil => intro _; exact ⟨[], rfl⟩
  | cons it rest ih =>
    intro h
    obtain ⟨ev, hfind, hlt⟩ := h it (List.mem_cons_self it rest)
    obtain ⟨ds', hrest⟩ := ih (fun a ha => h a (List.mem_cons_of_mem _ ha))
    refine ⟨⟨it.eventId, ev.name, ev.availableSeats, it.quantity⟩ :: ds', ?_⟩
    simp [validateItems, hfind, hlt, hrest]

theorem validateItems_error_iff {s : DBState} {e : BookingError} :
    ∀ {items : List BookingItem},
      validateItems s items = .error e ↔
        ∃ pre it post, items = pre ++ it :: post
          ∧ (∀ p ∈ pre, itemPasses s p) ∧ itemFails s it e := by
  intro items
  induction items with
  | nil =>
    constructor
    · intro h
      exact absurd h (by simp [validateItems])
    · rintro ⟨pre, it, post, heq, -, -⟩
      exact absurd heq (by simp)
  | cons hd rest ih =>
    constructor
    · intro h
      simp only [validateItems] at h
      split at h
      next hnone =>
        injection h with h'
        exact ⟨[], hd, rest, rfl, by simp, Or.inl ⟨hnone, h'.symm⟩⟩
      next ev hsome =>
        split at h
        next hlt =>
          injection h with h'
          exact ⟨[], hd, rest, rfl, by simp, Or.inr ⟨ev, hsome, hlt, h'.symm⟩⟩
        next hlt =>
          split at h
          next e' herr =>
            injection h with h'
            subst h'
            obtain ⟨pre, it, post, heq, hpass, hfail⟩ := ih.mp herr
            refine ⟨hd :: pre, it, post, by rw [heq]; rfl, ?_, hfail⟩
            intro p hp
            rcases List.mem_cons.mp hp with hph | hpm
            · subst hph
              exact ⟨ev, hsome, hlt⟩
            · exact hpass p hpm
          · exact absurd h (by simp)
    · rintro ⟨pre, it, post, heq, hpass, hfail⟩
      cases pre with
      | nil =>
        simp only [List.nil_append, List.cons.injEq] at heq
        obtain ⟨hhd, hrest⟩ := heq
        subst hhd
        subst hrest
        rcases hfail with ⟨hnone, he⟩ | ⟨ev, hsome, hlt, he⟩
        · simp [validateItems, hnone, he]
        · simp [validateItems, hsome, hlt, he]
      | cons p pre =>
        simp only [List.cons_append, List.cons.injEq] at heq
        obtain ⟨hhd, hrest⟩ := heq
        subst hhd
        have herr : validateItems s rest = .error e :=
          ih.mpr ⟨pre, it, post, hrest,
            fun a ha => hpass a (List.mem_cons_of_mem _ ha), hfail⟩
        obtain ⟨ev, hsome, hlt⟩ := hpass hd (List.mem_cons_self hd pre)
        simp [validateItems, hsome, hlt, herr]

/-! ## Service-call unfolding lemmas -/

theorem createBooking_guard_miss (s : DBState) (input : CreateBookingInput)
    (key : Option String) (now : Nat)
    (h : ∀ k, key = some k →
      s.bookings.find? (fun b => b.idempotencyKey == some k) = none) :
    createBooking s input key now = createBookingTx s input key now := by
  cases key with
  | none => rfl
  | some k => simp [createBooking, h k rfl]

theorem createBooking_guard_hit {s : DBState} {k : String} {b : Booking}
    (input : CreateBookingInput) (now : Nat)
    (hf : s.bookings.find? (fun b => b.idempotencyKey == some k) = some b) :
    createBooking s input (some k) now = (.ok (bookingProjection s b), s) := by
  simp [createBooking, hf]

theorem createBookingTx_of_error {s : DBState} {input : CreateBookingInput}
    {e : BookingError} (key : Option String) (now : Nat)
    (h : validateItems s input.items = .error e) :
    createBookingTx s input key now = (.error e, s) := by
  simp [createBookingTx, h]

theorem createBookingTx_of_ok {s : DBState} {input : CreateBookingInput}
    {ds : List EventDetail} (key : Option String) (now : Nat)
    (h : validateItems s input.items = .ok ds) :
    createBookingTx s input key now =
      (.ok (mkResult ds (newBooking s input key now)),
        { events := decrementAll s.events ds
          bookings := newBooking s input key now :: s.bookings
          nextId := s.nextId + 1 }) := by
  simp [createBookingTx, h]

theorem cancelBooking_not_found {s : DBState} {bid : Nat}
    (h : s.bookings.find? (fun b => b.id == bid) = none) :
    cancelBooking s bid = (.error (.BookingNotFound bid), s) := by
  simp [cancelBooking, h]

theorem cancelBooking_already_cancelled {s : DBState} {bid : Nat} {b : Booking}
    (hf : s.bookings.find? (fun b => b.id == bid) = some b)
    (hc : b.status = .CANCELLED) :
    cancelBooking s bid = (.error (.BookingAlreadyCancelled bid), s) := by
  simp [cancelBooking, hf, hc]

theorem cancelBooking_of_ok {s : DBState} {bid : Nat} {b : Booking}
    (hf : s.bookings.find? (fun b => b.id == bid) = some b)
    (hc : ¬ b.status = .CANCELLED) :
    cancelBooking s bid =
      (.ok (bookingProjection
          { events := restoreAll s.events b.items
            bookings := s.bookings.map
              (fun x => if x.id == bid then { b with status := .CANCELLED } else x)
            nextId := s.nextId }
          { b with status := .CANCELLED }),
        { events := restoreAll s.events b.items
          bookings := s.bookings.map
            (fun x => if x.id == bid then { b with status := .CANCELLED } else x)
          nextId := s.nextId }) := by
  simp [cancelBooking, hf, hc]

/-! ## Accounting lemmas -/

theorem confirmedQty_cons (b : Booking) (l : List Booking) (x : String) :
    confirmedQty (b :: l) x =
      (if b.status = .CONFIRMED then sumQtyFor x b.items else 0) + confirmedQty l x := by
  by_cases h : b.status = .CONFIRMED <;> simp [confirmedQty, h]

theorem confirmedQty_nonneg {l : List Booking} {x : String}
    (h : ∀ b ∈ l, ∀ it ∈ b.items, 1 ≤ it.quantity) : 0 ≤ confirmedQty l x := by
  induction l with
  | nil => simp [confirmedQty]
  | cons b l ih =>
    rw [confirmedQty_cons]
    have h1 : 0 ≤ sumQtyFor x b.items :=
      sumQtyFor_nonneg (h b (List.mem_cons_self b l))
    have h2 : 0 ≤ confirmedQty l x := ih (fun a ha => h a (List.mem_cons_of_mem _ ha))
    by_cases hb : b.status = .CONFIRMED
    · rw [if_pos hb]; omega
    · rw [if_neg hb]; omega

theorem totalQty_aux (items : List BookingItem) :
    ∀ a : Int, items.foldl (fun acc it => acc + it.quantity) a
      = a + (items.map (fun it => it.quantity)).sum := by
  induction items with
  | nil => intro a; simp
  | cons it items ih =>
    intro a
    simp only [List.foldl_cons, List.map_cons, List.sum_cons]
    rw [ih (a + it.quantity)]
    ring

theorem totalQty_eq_sum (items : List BookingItem) :
    totalQty items = (items.map (fun it => it.quantity)).sum := by
  have := totalQty_aux items 0
  simpa [totalQty] using this

theorem map_flip_id_of_no_match {l : List Booking} {bid : Nat} {u : Booking}
    (h : ∀ y ∈ l, y.id ≠ bid) :
    l.map (fun x => if x.id == bid then u else x) = l := by
  induction l with
  | nil => rfl
  | cons y l ih =>
    simp only [List.map_cons]
    rw [if_neg (by simpa using h y (List.mem_cons_self y l)),
      ih (fun a ha => h a (List.mem_cons_of_mem _ ha))]

theorem map_flip_ids {l : List Booking} {bid : Nat} {u : Booking} (hu : u.id = bid) :
    (l.map (fun x => if x.id == bid then u else x)).map (fun b => b.id)
      = l.map (fun b => b.id) := by
  induction l with
  | nil => rfl
  | cons y l ih =>
    simp only [List.map_cons, ih, List.cons.injEq, and_true]
    by_cases h : y.id = bid
    · simp [h, hu]
    · simp [h]

theorem confirmedQty_flip {l : List Booking} {b : Booking} {bid : Nat}
    (hnd : (l.map (fun y => y.id)).Nodup) (hb : b ∈ l) (hid : b.id = bid)
    (hconf : b.status = .CONFIRMED) (x : String) :
    confirmedQty
        (l.map (fun y => if y.id == bid then { b with status := .CANCELLED } else y)) x
      = confirmedQty l x - sumQtyFor x b.items := by
  induction l with
  | nil => simp at hb
  | cons h t ih =>
    simp only [List.map_cons, List.nodup_cons] at hnd
    rcases List.mem_cons.mp hb with hbh | hbt
    · subst hbh
      simp only [List.map_cons]
      rw [if_pos (by simpa using hid)]
      have hno : ∀ y ∈ t, y.id ≠ bid := by
        intro y hy hybid
        exact hnd.1 (List.mem_map.mpr ⟨y, hy, hybid.trans hid.symm⟩)
      rw [map_flip_id_of_no_match hno, confirmedQty_cons, confirmedQty_cons,
        if_pos hconf]
      have : ({ b with status := BookingStatus.CANCELLED } : Booking).status
          = BookingStatus.CANCELLED := rfl
      rw [if_neg (by rw [this]; intro hcc; cases hcc)]
      simp
    · have hhne : h.id ≠ bid := by
        intro hh
        exact hnd.1 (List.mem_map.mpr ⟨b, hbt, hid.trans hh.symm⟩)
      simp only [List.map_cons]
      rw [if_neg (by simpa using hhne), confirmedQty_cons, confirmedQty_cons,
        ih hnd.2 hbt]
      omega

/-! ## Ledger-invariant preservation -/

theorem seatInv_of_ledgerInv {s : DBState} (h : LedgerInv s) : SeatInv s := by
  obtain ⟨h1, -, h3, -, -⟩ := h
  intro p hp
  have hb := h1 p hp
  have hc : 0 ≤ confirmedQty s.bookings p.1 := confirmedQty_nonneg
    (fun b hbm it hit => (h3 b hbm it hit).1)
  exact ⟨hb.1, by omega⟩

theorem ledgerInv_tx_ok {s : DBState} {input : CreateBookingInput}
    {ds : List EventDetail} (key : Option String) (now : Nat)
    (hInv : LedgerInv s) (hpre : SchemaPre input)
    (hval : validateItems s input.items = .ok ds) :
    LedgerInv
      { events := decrementAll s.events ds
        bookings := newBooking s input key now :: s.bookings
        nextId := s.nextId + 1 } := by
  obtain ⟨hSeat, hKeys, hQty, hIds, hFresh⟩ := hInv
  have hKeys' : ((decrementAll s.events ds).map (fun p => p.1)).Nodup := by
    rw [decrementAll_keys]
    exact hKeys
  refine ⟨?_, hKeys', ?_, ?_, ?_⟩
  · intro p hp
    have hfind' : findEvent (decrementAll s.events ds) p.1 = some p.2 :=
      findEvent_of_mem _ _ _ hKeys' hp
    rw [findEvent_decrementAll] at hfind'
    cases hf0 : findEvent s.events p.1 with
    | none => rw [hf0] at hfind'; simp at hfind'
    | some ev₀ =>
      rw [hf0] at hfind'
      have hfind2 : ({ ev₀ with availableSeats :=
          ev₀.availableSeats - sumReqFor p.1 ds } : Event) = p.2 :=
        Option.some.inj hfind'
      have hbase := hSeat (p.1, ev₀) (mem_of_findEvent _ _ _ hf0)
      have hsum : sumReqFor p.1 ds = sumQtyFor p.1 input.items :=
        validateItems_sumReq hval p.1
      have hbound : sumQtyFor p.1 input.items ≤ ev₀.availableSeats :=
        validateItems_bound hval hpre.2.2 p.1 ev₀ hf0 hbase.1
      have hconf' : confirmedQty (newBooking s input key now :: s.bookings) p.1
          = sumQtyFor p.1 input.items + confirmedQty s.bookings p.1 := by
        rw [confirmedQty_cons]
        simp [newBooking]
      have hav : p.2.availableSeats = ev₀.availableSeats - sumQtyFor p.1 input.items := by
        rw [← hfind2, hsum]
      have htot : p.2.totalSeats = ev₀.totalSeats := by rw [← hfind2]
      have h1 : 0 ≤ ev₀.availableSeats := hbase.1
      have h2 : ev₀.availableSeats + confirmedQty s.bookings p.1 ≤ ev₀.totalSeats :=
        hbase.2
      show 0 ≤ p.2.availableSeats
        ∧ p.2.availableSeats
            + confirmedQty (newBooking s input key now :: s.bookings) p.1
          ≤ p.2.totalSeats
      exact ⟨by omega, by omega⟩
  · intro b hb it hit
    rcases List.mem_cons.mp hb with hbn | hbo
    · subst hbn
      exact hpre.2.1 it hit
    · exact hQty b hbo it hit
  · rw [List.map_cons, List.nodup_cons]
    refine ⟨?_, hIds⟩
    intro hmem
    obtain ⟨y, hy, hyid⟩ := List.mem_map.mp hmem
    have := hFresh y hy
    simp only [newBooking] at hyid
    omega
  · intro b hb
    rcases List.mem_cons.mp hb with hbn | hbo
    · subst hbn
      show s.nextId < s.nextId + 1
      omega
    · have := hFresh b hbo
      show b.id < s.nextId + 1
      omega

theorem ledgerInv_createBooking (s : DBState) (input : CreateBookingInput)
    (key : Option String) (now : Nat)
    (hInv : LedgerInv s) (hpre : SchemaPre input) :
    LedgerInv (createBooking s input key now).2 := by
  have htx : LedgerInv (createBookingTx s input key now).2 := by
    cases hval : validateItems s input.items with
    | error e => rw [createBookingTx_of_error key now hval]; exact hInv
    | ok ds => rw [createBookingTx_of_ok key now hval]; exact ledgerInv_tx_ok key now hInv hpre hval
  cases key with
  | none => exact htx
  | some k =>
    cases hf : s.bookings.find? (fun b => b.idempotencyKey == some k) with
    | none =>
      rw [createBooking_guard_miss s input (some k) now (fun k' hk' => by
        injection hk' with hk''
        rw [← hk'']
        exact hf)]
      exact htx
    | some b =>
      rw [createBooking_guard_hit input now hf]
      exact hInv

theorem ledgerInv_cancelBooking (s : DBState) (bid : Nat) (hInv : LedgerInv s) :
    LedgerInv (cancelBooking s bid).2 := by
  cases hf : s.bookings.find? (fun b => b.id == bid) with
  | none => rw [cancelBooking_not_found hf]; exact hInv
  | some b =>
    by_cases hc : b.status = .CANCELLED
    · rw [cancelBooking_already_cancelled hf hc]; exact hInv
    · rw [cancelBooking_of_ok hf hc]
      obtain ⟨hSeat, hKeys, hQty, hIds, hFresh⟩ := hInv
      have hbmem : b ∈ s.bookings := List.mem_of_find?_eq_some hf
      have hbid : b.id = bid := by
        have := List.find?_some hf
        simpa using this
      have hconf : b.status = .CONFIRMED := by
        cases hs : b.status
        · rfl
        · exact absurd hs hc
      have hKeys' : ((restoreAll s.events b.items).map (fun p => p.1)).Nodup := by
        rw [restoreAll_keys]
        exact hKeys
      refine ⟨?_, hKeys', ?_, ?_, ?_⟩
      · intro p hp
        have hfind' : findEvent (restoreAll s.events b.items) p.1 = some p.2 :=
          findEvent_of_mem _ _ _ hKeys' hp
        rw [findEvent_restoreAll] at hfind'
        cases hf0 : findEvent s.events p.1 with
        | none => rw [hf0] at hfind'; simp at hfind'
        | some ev₀ =>
          rw [hf0] at hfind'
          have hfind2 : ({ ev₀ with availableSeats :=
              ev₀.availableSeats + sumQtyFor p.1 b.items } : Event) = p.2 :=
            Option.some.inj hfind'
          have hbase := hSeat (p.1, ev₀) (mem_of_findEvent _ _ _ hf0)
          have hflip : confirmedQty
              (s.bookings.map
                (fun y => if y.id == bid then { b with status := .CANCELLED } else y))
              p.1
              = confirmedQty s.bookings p.1 - sumQtyFor p.1 b.items :=
            confirmedQty_flip hIds hbmem hbid hconf p.1
          have hQ : 0 ≤ sumQtyFor p.1 b.items :=
            sumQtyFor_nonneg (fun it hit => (hQty b hbmem it hit).1)
          have hav : p.2.availableSeats
              = ev₀.availableSeats + sumQtyFor p.1 b.items := by
            rw [← hfind2]
          have htot : p.2.totalSeats = ev₀.totalSeats := by rw [← hfind2]
          have h1 : 0 ≤ ev₀.availableSeats := hbase.1
          have h2 : ev₀.availableSeats + confirmedQty s.bookings p.1 ≤ ev₀.totalSeats :=
            hbase.2
          show 0 ≤ p.2.availableSeats
            ∧ p.2.availableSeats
                + confirmedQty
                  (s.bookings.map
                    (fun y => if y.id == bid then { b with status := .CANCELLED } else y))
                  p.1
              ≤ p.2.totalSeats
          exact ⟨by omega, by omega⟩
      · intro y hy it hit
        obtain ⟨y₀, hy₀, hy₀e⟩ := List.mem_map.mp hy
        by_cases hmatch : y₀.id = bid
        · rw [← hy₀e, if_pos (by simpa using hmatch)] at hit
          exact hQty b hbmem it hit
        · rw [← hy₀e, if_neg (by simpa using hmatch)] at hit
          exact hQty y₀ hy₀ it hit
      · rw [map_flip_ids (by simpa using hbid)]
        exact hIds
      · intro y hy
        obtain ⟨y₀, hy₀, hy₀e⟩ := List.mem_map.mp hy
        by_cases hmatch : y₀.id = bid
        · rw [← hy₀e, if_pos (by simpa using hmatch)]
          show b.id < s.nextId
          exact hFresh b hbmem
        · rw [← hy₀e, if_neg (by simpa using hmatch)]
          show y₀.id < s.nextId
          exact hFresh y₀ hy₀

theorem ledgerInv_applyOp {s : DBState} {op : Op}
    (hInv : LedgerInv s) (hvalid : OpValid op) : LedgerInv (applyOp s op) := by
  cases op with
  | create input key now => exact ledgerInv_createBooking s input key now hInv hvalid
  | cancel bid => exact ledgerInv_cancelBooking s bid hInv

theorem ledgerInv_runOps {ops : List Op} :
    ∀ {s : DBState}, LedgerInv s → (∀ op ∈ ops, OpValid op) →
      LedgerInv (runOps s ops) := by
  induction ops with
  | nil => intro s hInv _; exact hInv
  | cons op ops ih =>
    intro s hInv hvalid
    exact ih (ledgerInv_applyOp hInv (hvalid op (List.mem_cons_self op ops)))
      (fun o ho => hvalid o (List.mem_cons_of_mem _ ho))

/-! ## Concrete sample data (seed-like fixtures for witnesses) -/

/-- Fixture event mirroring the seeded "Classical Concert". -/
def evConcert : Event := { name := "Classical Concert", totalSeats := 10, availableSeats := 5 }

/-- Fixture event with 4 of 4 seats left. -/
def evPlay : Event := { name := "Play", totalSeats := 4, availableSeats := 4 }

/-- A store with two events and no bookings. -/
def sample0 : DBState :=
  { events := [("E1", evConcert), ("E2", evPlay)], bookings := [], nextId := 0 }

/-- A CONFIRMED booking for 2 seats of E1, stored under idempotency key K. -/
def bookingK : Booking :=
  { id := 0, customerEmail := "a@test.com", status := .CONFIRMED, createdAt := 0
    idempotencyKey := some "K", items := [⟨"E1", 2⟩] }

/-- A store holding `bookingK` (its decrement recorded: E1 has 5 of 10 left,
2 held by the booking). -/
def sampleK : DBState :=
  { events := [("E1", evConcert), ("E2", evPlay)], bookings := [bookingK], nextId := 1 }

deriving instance DecidableEq for Except

instance (input : CreateBookingInput) : Decidable (SchemaPre input) := by
  unfold SchemaPre
  infer_instance

instance (op : Op) : Decidable (OpValid op) := by
  cases op <;> (unfold OpValid; infer_instance)

instance (s : DBState) : Decidable (SeatInv s) := by
  unfold SeatInv
  infer_instance

instance (s : DBState) : Decidable (LedgerInv s) := by
  unfold LedgerInv
  infer_instance

/-! ## Error-path lemma for createBooking -/

theorem createBooking_error_state (s : DBState) (input : CreateBookingInput)
    (key : Option String) (now : Nat) (e : BookingError)
    (h : (createBooking s input key now).1 = .error e) :
    (createBooking s input key now).2 = s
      ∧ validateItems s input.items = .error e := by
  have htx : (createBookingTx s input key now).1 = .error e →
      (createBookingTx s input key now).2 = s
        ∧ validateItems s input.items = .error e := by
    intro h'
    cases hval : validateItems s input.items with
    | error e' =>
      rw [createBookingTx_of_error key now hval] at h' ⊢
      have he : e' = e := by
        injection h'
      rw [← he]
      exact ⟨rfl, rfl⟩
    | ok ds =>
      rw [createBookingTx_of_ok key now hval] at h'
      exact absurd h' (by simp)
  cases key with
  | none => exact htx h
  | some k =>
    cases hf : s.bookings.find? (fun b => b.idempotencyKey == some k) with
    | some b =>
      rw [createBooking_guard_hit input now hf] at h
      exact absurd h (by simp)
    | none =>
      have hmiss : createBooking s input (some k) now
          = createBookingTx s input (some k) now :=
        createBooking_guard_miss s input (some k) now (fun k' hk' => by
          injection hk' with hk''
          rw [← hk'']
          exact hf)
      rw [hmiss] at h ⊢
      exact htx h

/-! ## Claim C2 — all-or-nothing atomicity of reserve -/

/-- C2: whenever `createBooking` fails, the returned store state is exactly
the pre-call state — every event's `availableSeats` untouched (including
events validated earlier in the same request), no Booking and no line
items created — and the error is an `EventNotFound` or an
`InsufficientSeats`. -/
theorem c2_reserve_atomic_on_error (s : DBState) (input : CreateBookingInput)
    (key : Option String) (now : Nat) (e : BookingError)
    (h : (createBooking s input key now).1 = .error e) :
    (createBooking s input key now).2 = s
      ∧ ((∃ eid, e = .EventNotFound eid)
          ∨ ∃ eid req av, e = .InsufficientSeats eid req av) := by
  obtain ⟨hstate, hval⟩ := createBooking_error_state s input key now e h
  refine ⟨hstate, ?_⟩
  obtain ⟨pre, it, post, -, -, hfail⟩ := validateItems_error_iff.mp hval
  rcases hfail with ⟨-, he⟩ | ⟨ev, -, -, he⟩
  · exact Or.inl ⟨it.eventId, he⟩
  · exact Or.inr ⟨it.eventId, it.quantity, ev.availableSeats, he⟩

/-- C2 witness: the spec's own scenario — E1 for 1 (sufficient, validated
first) and E2 for 5 (insufficient, 4 left): the call fails
`InsufficientSeats` and the state, including E1's seats, is exactly the
pre-call state. -/
theorem c2_witness :
    (createBooking sample0 ⟨"b@test.com", [⟨"E1", 1⟩, ⟨"E2", 5⟩]⟩ none 0).1
        = .error (.InsufficientSeats "E2" 5 4)
      ∧ (createBooking sample0 ⟨"b@test.com", [⟨"E1", 1⟩, ⟨"E2", 5⟩]⟩ none 0).2
        = sample0 :=
  ⟨by decide,
    (c2_reserve_atomic_on_error sample0 ⟨"b@test.com", [⟨"E1", 1⟩, ⟨"E2", 5⟩]⟩
      none 0 (.InsufficientSeats "E2" 5 4) (by decide)).1⟩

/-! ## Claim C9 — notification failures are swallowed -/

/-- C9: for every behavior of the notification channel — including one
whose `send` always throws — `NotificationService.notify` resolves without
propagating an error, and the post-commit notification dispatch of
`createBooking` never changes the returned `BookingResult` or the
committed state. -/
theorem c9_notification_swallowed (channel : NotificationChannel)
    (n : BookingNotification) (s : DBState) (input : CreateBookingInput)
    (key : Option String) (now : Nat) :
    notifyService channel n = .ok ()
      ∧ createBookingAndNotify channel s input key now
        = createBooking s input key now := by
  constructor
  · cases h : channel n <;> simp [notifyService, h]
  · unfold createBookingAndNotify
    cases hc : createBooking s input key now with
    | mk res st =>
      cases res with
      | error e => rfl
      | ok r =>
        show (match notifyService channel (notificationOf r) with
          | Except.ok _ => ((Except.ok r : Except BookingError BookingResult), st)
          | Except.error _ => (Except.ok r, st)) = (Except.ok r, st)
        split <;> rfl

/-! ## Claim C7 — cancel raise conditions and atomicity on error -/

theorem find_booking_of_mem {l : List Booking} {bid : Nat} {b : Booking}
    (hnd : (l.map (fun y => y.id)).Nodup) (hb : b ∈ l) (hid : b.id = bid) :
    l.find? (fun y => y.id == bid) = some b := by
  induction l with
  | nil => simp at hb
  | cons y l ih =>
    simp only [List.map_cons, List.nodup_cons] at hnd
    rcases List.mem_cons.mp hb with heq | hmem
    · subst heq
      exact List.find?_cons_of_pos _ (by simpa using hid)
    · have hyne : ¬ y.id = bid := by
        intro hy
        exact hnd.1 (List.mem_map.mpr ⟨b, hmem, hid.trans hy.symm⟩)
      rw [List.find?_cons_of_neg _ (by simpa using hyne)]
      exact ih hnd.2 hmem

theorem find?_map_flip {l : List Booking} {bid : Nat} {u b : Booking}
    (hu : u.id = bid) (hf : l.find? (fun y => y.id == bid) = some b) :
    (l.map (fun y => if y.id == bid then u else y)).find? (fun y => y.id == bid)
      = some u := by
  induction l with
  | nil => simp at hf
  | cons y l ih =>
    by_cases hy : y.id = bid
    · have hyb : (y.id == bid) = true := by simp [hy]
      have hub : (u.id == bid) = true := by simp [hu]
      simp only [List.map_cons]
      rw [if_pos hyb]
      exact List.find?_cons_of_pos _ hub
    · rw [List.find?_cons_of_neg _ (by simp [hy])] at hf
      simp only [List.map_cons]
      rw [if_neg (by simp [hy] : ¬ ((y.id == bid) = true))]
      rw [List.find?_cons_of_neg _ (by simp [hy])]
      exact ih hf

/-- C7: `cancelBooking` fails `BookingNotFound` exactly when no stored
booking carries the requested id, fails `BookingAlreadyCancelled` exactly
when the (unique) booking with that id is already CANCELLED, leaves the
state untouched in either failure case, and a second cancel of a
just-cancelled booking always fails `BookingAlreadyCancelled`. -/
theorem c7_cancel_error_conditions (s : DBState) (bid : Nat)
    (hnd : (s.bookings.map (fun b => b.id)).Nodup) :
    ((cancelBooking s bid).1 = .error (.BookingNotFound bid)
        ↔ ∀ b ∈ s.bookings, b.id ≠ bid)
      ∧ ((cancelBooking s bid).1 = .error (.BookingAlreadyCancelled bid)
        ↔ ∃ b ∈ s.bookings, b.id = bid ∧ b.status = .CANCELLED)
      ∧ (∀ e, (cancelBooking s bid).1 = .error e → (cancelBooking s bid).2 = s)
      ∧ (∀ r s₁, cancelBooking s bid = (.ok r, s₁) →
          cancelBooking s₁ bid = (.error (.BookingAlreadyCancelled bid), s₁)) := by
  cases hf : s.bookings.find? (fun b => b.id == bid) with
  | none =>
    have hnone : ∀ b ∈ s.bookings, b.id ≠ bid := by
      intro b hb hbid
      have := List.find?_eq_none.mp hf b hb
      simp [hbid] at this
    rw [cancelBooking_not_found hf]
    refine ⟨⟨fun _ => hnone, fun _ => rfl⟩, ?_, fun e _ => rfl, ?_⟩
    · constructor
      · intro h
        exact absurd h (by simp)
      · rintro ⟨b, hb, hbid, -⟩
        exact absurd hbid (hnone b hb)
    · intro r s₁ h
      exact absurd h (by simp)
  | some b =>
    have hbmem : b ∈ s.bookings := List.mem_of_find?_eq_some hf
    have hbid : b.id = bid := by
      have := List.find?_some hf
      simpa using this
    by_cases hc : b.status = .CANCELLED
    · rw [cancelBooking_already_cancelled hf hc]
      refine ⟨?_, ?_, fun e _ => rfl, ?_⟩
      · constructor
        · intro h
          injection h with h'
          exact absurd h' (by simp)
        · intro h
          exact absurd hbid (h b hbmem)
      · exact ⟨fun _ => ⟨b, hbmem, hbid, hc⟩, fun _ => rfl⟩
      · intro r s₁ h
        exact absurd h (by simp)
    · rw [cancelBooking_of_ok hf hc]
      refine ⟨?_, ?_, ?_, ?_⟩
      · constructor
        · intro h
          exact absurd h (by simp)
        · intro h
          exact absurd hbid (h b hbmem)
      · constructor
        · intro h
          exact absurd h (by simp)
        · rintro ⟨b', hb', hbid', hc'⟩
          have hbb : b' = b := by
            have := find_booking_of_mem hnd hb' hbid'
            rw [hf] at this
            exact (Option.some.inj this).symm
          subst hbb
          exact absurd hc' hc
      · intro e h
        exact absurd h (by simp)
      · intro r s₁ h
        obtain ⟨-, hsnd⟩ := Prod.ext_iff.mp h
        subst hsnd
        exact cancelBooking_already_cancelled
          (find?_map_flip (b := b) (by simpa using hbid) hf) rfl

/-- C7 witness: cancelling a missing id on the fixture store fails
`BookingNotFound` precisely because no booking has id 99. -/
theorem c7_witness :
    (cancelBooking sampleK 99).1 = .error (.BookingNotFound 99)
      ↔ ∀ b ∈ sampleK.bookings, b.id ≠ 99 :=
  (c7_cancel_error_conditions sampleK 99 (by decide)).1

/-! ## Claim C4 — reserve failure conditions, in submission order -/

/-- C4 (amended): when the idempotency short-circuit does not apply (no
key supplied, or no booking stored under the supplied key),
`createBooking` fails with error `e` exactly when the input has a first
offending item — all items before it pass validation — and `e` is that
item's error: `EventNotFound` with its eventId when the event is missing,
`InsufficientSeats` with its eventId, requested quantity and observed
availability when seats run short; and if every item passes, no error is
raised. -/
theorem c4_first_offending_item (s : DBState) (input : CreateBookingInput)
    (key : Option String) (now : Nat)
    (hguard : ∀ k, key = some k →
      s.bookings.find? (fun b => b.idempotencyKey == some k) = none) :
    (∀ e, (createBooking s input key now).1 = .error e ↔
        ∃ pre it post, input.items = pre ++ it :: post
          ∧ (∀ p ∈ pre, itemPasses s p) ∧ itemFails s it e)
      ∧ ((∀ it ∈ input.items, itemPasses s it) →
          ∀ e, (createBooking s input key now).1 ≠ .error e) := by
  rw [createBooking_guard_miss s input key now hguard]
  constructor
  · intro e
    constructor
    · intro h
      cases hval : validateItems s input.items with
      | ok ds =>
        rw [createBookingTx_of_ok key now hval] at h
        exact absurd h (by simp)
      | error e' =>
        rw [createBookingTx_of_error key now hval] at h
        have he : e' = e := by injection h
        rw [← he]
        exact validateItems_error_iff.mp hval
    · intro hex
      have hval : validateItems s input.items = .error e :=
        validateItems_error_iff.mpr hex
      rw [createBookingTx_of_error key now hval]
  · intro hpass e
    obtain ⟨ds, hval⟩ := validateItems_ok_of_passes hpass
    rw [createBookingTx_of_ok key now hval]
    simp

/-- C4 counterexample to the claim as frozen: with a booking already
stored under key K, a `createBooking` call carrying key K whose first
(and only) item names a non-existent event does NOT fail `EventNotFound`
— the idempotency short-circuit returns the stored booking instead — so
"fails EventNotFound exactly when the first offending item names a
missing event" is false for that call. -/
theorem c4_counterexample :
    ¬ ((createBooking sampleK ⟨"x@test.com", [⟨"MISSING", 1⟩]⟩ (some "K") 5).1
          = .error (.EventNotFound "MISSING")
        ↔ ∃ pre it post,
            (⟨"x@test.com", [⟨"MISSING", 1⟩]⟩ : CreateBookingInput).items
                = pre ++ it :: post
              ∧ (∀ p ∈ pre, itemPasses sampleK p)
              ∧ itemFails sampleK it (.EventNotFound "MISSING")) := by
  intro h
  have hex : ∃ pre it post,
      (⟨"x@test.com", [⟨"MISSING", 1⟩]⟩ : CreateBookingInput).items
          = pre ++ it :: post
        ∧ (∀ p ∈ pre, itemPasses sampleK p)
        ∧ itemFails sampleK it (.EventNotFound "MISSING") :=
    ⟨[], ⟨"MISSING", 1⟩, [], rfl, by simp, Or.inl ⟨by decide, rfl⟩⟩
  have hcontra := h.mpr hex
  have hok : (createBooking sampleK ⟨"x@test.com", [⟨"MISSING", 1⟩]⟩ (some "K") 5).1
      = .ok (bookingProjection sampleK bookingK) := by decide
  rw [hok] at hcontra
  exact absurd hcontra (by simp)

/-- C4 witness: a keyless call naming a missing event fails
`EventNotFound` with that eventId, by the amended theorem. -/
theorem c4_witness :
    (createBooking sample0 ⟨"x@test.com", [⟨"MISSING", 1⟩]⟩ none 0).1
        = .error (.EventNotFound "MISSING")
      ↔ ∃ pre it post,
          (⟨"x@test.com", [⟨"MISSING", 1⟩]⟩ : CreateBookingInput).items
              = pre ++ it :: post
            ∧ (∀ p ∈ pre, itemPasses sample0 p)
            ∧ itemFails sample0 it (.EventNotFound "MISSING") :=
  (c4_first_offending_item sample0 ⟨"x@test.com", [⟨"MISSING", 1⟩]⟩ none 0
    (fun _ hk => nomatch hk)).1 (.EventNotFound "MISSING")

/-! ## Claim C5 — idempotent retry -/

/-- C5: (a) whenever a booking is stored under idempotency key K,
`createBooking` called with key K returns that booking's current
projection and leaves the store untouched — no seat mutated, no booking
created; (b) hence after a fresh keyed create succeeds, a second create
with the same key returns the same booking id and leaves the
once-decremented state exactly as it was. -/
theorem c5_idempotent_retry (s : DBState) (k : String)
    (input input2 : CreateBookingInput) (now now2 : Nat) :
    (∀ b, s.bookings.find? (fun y => y.idempotencyKey == some k) = some b →
        createBooking s input (some k) now = (.ok (bookingProjection s b), s))
      ∧ (s.bookings.find? (fun y => y.idempotencyKey == some k) = none →
          ∀ r s₁, createBooking s input (some k) now = (.ok r, s₁) →
            createBooking s₁ input2 (some k) now2
                = (.ok (bookingProjection s₁ (newBooking s input (some k) now)), s₁)
              ∧ (bookingProjection s₁ (newBooking s input (some k) now)).id = r.id) := by
  constructor
  · intro b hf
    exact createBooking_guard_hit input now hf
  · intro hnone r s₁ hcall
    rw [createBooking_guard_miss s input (some k) now (fun k' hk' => by
      injection hk' with hk''
      rw [← hk'']
      exact hnone)] at hcall
    cases hval : validateItems s input.items with
    | error e =>
      rw [createBookingTx_of_error (some k) now hval] at hcall
      exact absurd (congrArg Prod.fst hcall) (by simp)
    | ok ds =>
      rw [createBookingTx_of_ok (some k) now hval] at hcall
      obtain ⟨hfst, hsnd⟩ := Prod.ext_iff.mp hcall
      subst hsnd
      have hr : r = mkResult ds (newBooking s input (some k) now) :=
        (Except.ok.inj hfst).symm
      have hfind : ((newBooking s input (some k) now) :: s.bookings).find?
          (fun y => y.idempotencyKey == some k)
            = some (newBooking s input (some k) now) :=
        List.find?_cons_of_pos _ (by simp [newBooking])
      refine ⟨createBooking_guard_hit input2 now2 hfind, ?_⟩
      rw [hr]
      rfl

/-- C5 witness: replaying key K on the fixture store returns the stored
booking's projection and the untouched store. -/
theorem c5_witness :
    createBooking sampleK ⟨"a@test.com", [⟨"E1", 2⟩]⟩ (some "K") 3
      = (.ok (bookingProjection sampleK bookingK), sampleK) :=
  (c5_idempotent_retry sampleK "K" ⟨"a@test.com", [⟨"E1", 2⟩]⟩
    ⟨"a@test.com", [⟨"E1", 2⟩]⟩ 3 4).1 bookingK (by decide)

/-! ## Claim C6 — cancellation reversibility -/

/-- C6 (amended): for every state and reserve input, when the idempotency
short-circuit does not apply (no key, or a fresh key) and `createBooking`
succeeds, cancelling the returned booking id succeeds, yields a projection
with status CANCELLED, and restores every event's `availableSeats` (indeed
every event row) to its pre-reservation value exactly. -/
theorem c6_reserve_cancel_roundtrip (s : DBState) (input : CreateBookingInput)
    (key : Option String) (now : Nat) (r : BookingResult) (s₁ : DBState)
    (hguard : ∀ k, key = some k →
      s.bookings.find? (fun b => b.idempotencyKey == some k) = none)
    (hcall : createBooking s input key now = (.ok r, s₁)) :
    ∃ r' s₂, cancelBooking s₁ r.id = (.ok r', s₂)
      ∧ r'.status = .CANCELLED
      ∧ ∀ x, findEvent s₂.events x = findEvent s.events x := by
  rw [createBooking_guard_miss s input key now hguard] at hcall
  cases hval : validateItems s input.items with
  | error e =>
    rw [createBookingTx_of_error key now hval] at hcall
    exact absurd (congrArg Prod.fst hcall) (by simp)
  | ok ds =>
    rw [createBookingTx_of_ok key now hval] at hcall
    obtain ⟨hfst, hsnd⟩ := Prod.ext_iff.mp hcall
    subst hsnd
    have hrid : r.id = s.nextId := by
      rw [← Except.ok.inj hfst]
      rfl
    have hfind : ((newBooking s input key now) :: s.bookings).find?
        (fun y => y.id == r.id) = some (newBooking s input key now) :=
      List.find?_cons_of_pos _ (by simp [newBooking, hrid])
    refine ⟨_, _, cancelBooking_of_ok hfind (by simp [newBooking]), rfl, ?_⟩
    intro x
    show findEvent (restoreAll (decrementAll s.events ds) input.items) x
      = findEvent s.events x
    rw [findEvent_restoreAll, findEvent_decrementAll, validateItems_sumReq hval x]
    cases hf0 : findEvent s.events x with
    | none => rfl
    | some ev =>
      generalize sumQtyFor x input.items = q
      exact congrArg some (by
        show ({ ev with availableSeats := ev.availableSeats - q + q } : Event) = ev
        rw [Int.sub_add_cancel])

/-- C6 counterexample to the claim as frozen: from a state holding a
CONFIRMED booking under key K (its 2-seat decrement recorded, E1 at 5),
`createBooking` with key K is a replay — it succeeds without decrementing
— and cancelling the returned booking id then RAISES E1 to 7 ≠ 5, so
"reserve then cancel restores availableSeats to its value in S exactly"
fails for that state and input. -/
theorem c6_counterexample :
    createBooking sampleK ⟨"a@test.com", [⟨"E1", 2⟩]⟩ (some "K") 5
        = (.ok (bookingProjection sampleK bookingK), sampleK)
      ∧ (bookingProjection sampleK bookingK).id = 0
      ∧ findEvent sampleK.events "E1" = some ⟨"Classical Concert", 10, 5⟩
      ∧ findEvent (cancelBooking sampleK 0).2.events "E1"
        = some ⟨"Classical Concert", 10, 7⟩ := by
  decide

/-- C6 witness: a fresh keyless reserve of 2 seats of E1 followed by a
cancel of the returned id (0) restores E1 (and every event) to its
pre-reservation row, with the cancel projection CANCELLED. -/
theorem c6_witness :
    ∃ r' s₂,
      cancelBooking
          { events := [("E1", ⟨"Classical Concert", 10, 3⟩), ("E2", evPlay)]
            bookings := [⟨0, "c@test.com", .CONFIRMED, 7, none, [⟨"E1", 2⟩]⟩]
            nextId := 1 }
          (⟨0, "c@test.com", .CONFIRMED, 7,
            [⟨"E1", "Classical Concert", 2⟩], 2⟩ : BookingResult).id
        = (.ok r', s₂)
      ∧ r'.status = .CANCELLED
      ∧ ∀ x, findEvent s₂.events x = findEvent sample0.events x :=
  c6_reserve_cancel_roundtrip sample0 ⟨"c@test.com", [⟨"E1", 2⟩]⟩ none 7
    ⟨0, "c@test.com", .CONFIRMED, 7, [⟨"E1", "Classical Concert", 2⟩], 2⟩
    { events := [("E1", ⟨"Classical Concert", 10, 3⟩), ("E2", evPlay)]
      bookings := [⟨0, "c@test.com", .CONFIRMED, 7, none, [⟨"E1", 2⟩]⟩]
      nextId := 1 }
    (fun _ hk => nomatch hk) (by decide)

/-! ## Claim C10 — shape of the success projection -/

theorem map_eq_map_get {α β γ : Type} (f : α → γ) (g : β → γ) :
    ∀ (l₁ : List α) (l₂ : List β), l₁.map f = l₂.map g →
      ∀ i (h1 : i < l₁.length) (h2 : i < l₂.length),
        f (l₁.get ⟨i, h1⟩) = g (l₂.get ⟨i, h2⟩) := by
  intro l₁
  induction l₁ with
  | nil => intro l₂ h i h1 h2; simp at h1
  | cons a l₁ ih =>
    intro l₂ h i h1 h2
    cases l₂ with
    | nil => simp at h2
    | cons b l₂ =>
      simp only [List.map_cons, List.cons.injEq] at h
      cases i with
      | zero => exact h.1
      | succ j => exact ih l₂ h.2 j (by simpa using h1) (by simpa using h2)

theorem get_map_zip {α β γ : Type} (f : α × β → γ) :
    ∀ (l₁ : List α) (l₂ : List β) i (h : i < ((l₁.zip l₂).map f).length)
      (hl1 : i < l₁.length) (hl2 : i < l₂.length),
      ((l₁.zip l₂).map f).get ⟨i, h⟩ = f (l₁.get ⟨i, hl1⟩, l₂.get ⟨i, hl2⟩) := by
  intro l₁
  induction l₁ with
  | nil => intro l₂ i h hl1 hl2; simp at hl1
  | cons a l₁ ih =>
    intro l₂ i h hl1 hl2
    cases l₂ with
    | nil => simp at hl2
    | cons b l₂ =>
      cases i with
      | zero => rfl
      | succ j =>
        exact ih l₂ j (by simpa using h) (by simpa using hl1) (by simpa using hl2)

/-- C10 (amended): for every `createBooking` call that actually executes
the reservation (the idempotency short-circuit does not apply) and
succeeds, the returned projection's items list has the same length and
order as the request's items: the i-th entry carries the i-th requested
eventId, that event's stored display name, and the i-th requested
quantity (the code pairs the i-th validated event with the i-th stored
line item by index), and `totalTickets` is the sum of the requested
quantities. -/
theorem c10_success_projection (s : DBState) (input : CreateBookingInput)
    (key : Option String) (now : Nat) (r : BookingResult) (s₁ : DBState)
    (hguard : ∀ k, key = some k →
      s.bookings.find? (fun b => b.idempotencyKey == some k) = none)
    (hcall : createBooking s input key now = (.ok r, s₁)) :
    r.items.length = input.items.length
      ∧ (∀ i, (hi : i < r.items.length) → (hi2 : i < input.items.length) →
          (r.items.get ⟨i, hi⟩).eventId = (input.items.get ⟨i, hi2⟩).eventId
            ∧ (r.items.get ⟨i, hi⟩).quantity = (input.items.get ⟨i, hi2⟩).quantity
            ∧ ∃ ev, findEvent s.events (input.items.get ⟨i, hi2⟩).eventId = some ev
                ∧ (r.items.get ⟨i, hi⟩).eventName = ev.name)
      ∧ r.totalTickets = (input.items.map (fun it => it.quantity)).sum := by
  rw [createBooking_guard_miss s input key now hguard] at hcall
  cases hval : validateItems s input.items with
  | error e =>
    rw [createBookingTx_of_error key now hval] at hcall
    exact absurd (congrArg Prod.fst hcall) (by simp)
  | ok ds =>
    rw [createBookingTx_of_ok key now hval] at hcall
    obtain ⟨hfst, -⟩ := Prod.ext_iff.mp hcall
    have hr : r = mkResult ds (newBooking s input key now) :=
      (Except.ok.inj hfst).symm
    subst hr
    have halign := validateItems_align (s := s) hval
    have hlen : ds.length = input.items.length := by
      have := congrArg List.length halign
      simpa using this
    have hitems : (mkResult ds (newBooking s input key now)).items
        = (ds.zip input.items).map
          (fun p => ⟨p.1.id, p.1.name, p.2.quantity⟩) := rfl
    have hlen2 : (mkResult ds (newBooking s input key now)).items.length
        = input.items.length := by
      rw [hitems, List.length_map, List.length_zip, hlen, Nat.min_self]
    refine ⟨hlen2, ?_, ?_⟩
    · intro i hi hi2
      have hids : i < ds.length := by omega
      have hget : (mkResult ds (newBooking s input key now)).items.get ⟨i, hi⟩
          = ⟨(ds.get ⟨i, hids⟩).id, (ds.get ⟨i, hids⟩).name,
              (input.items.get ⟨i, hi2⟩).quantity⟩ := by
        have := get_map_zip (fun p => (⟨p.1.id, p.1.name, p.2.quantity⟩ : ResultItem))
          ds input.items i (hitems ▸ hi) hids hi2
        rw [← this]
        rfl
      have hpair := map_eq_map_get (fun d => (d.id, d.requestedQuantity))
        (fun it => (it.eventId, it.quantity)) ds input.items halign i hids hi2
      have hid : (ds.get ⟨i, hids⟩).id = (input.items.get ⟨i, hi2⟩).eventId :=
        congrArg Prod.fst hpair
      have hdmem : ds.get ⟨i, hids⟩ ∈ ds := List.get_mem ds i hids
      obtain ⟨ev, hfind, hname, -, -⟩ := validateItems_sound hval _ hdmem
      refine ⟨?_, ?_, ev, ?_, ?_⟩
      · rw [hget, ← hid]
      · rw [hget]
      · rw [← hid]
        exact hfind
      · rw [hget]
        exact hname
    · show totalQty input.items = (input.items.map (fun it => it.quantity)).sum
      exact totalQty_eq_sum input.items

/-- C10 counterexample to the claim as frozen: with a booking of ONE line
item stored under key K, a successful `createBooking` call carrying key K
and TWO items returns the stored booking's projection — one item, not
two — so "for every successful call the projection's items match the
request's items" is false for that call. -/
theorem c10_counterexample :
    (createBooking sampleK ⟨"a@test.com", [⟨"E1", 1⟩, ⟨"E2", 1⟩]⟩ (some "K") 5).1.map
        (fun r => r.items.length) = .ok 1
      ∧ (⟨"a@test.com", [⟨"E1", 1⟩, ⟨"E2", 1⟩]⟩ : CreateBookingInput).items.length
        = 2 := by
  decide

/-- C10 witness: a fresh keyless two-item reserve returns a projection
with as many items as requested and totalTickets 1+2, by the amended
theorem applied at a concrete call. -/
theorem c10_witness :
    (⟨0, "c@test.com", .CONFIRMED, 0,
        [⟨"E1", "Classical Concert", 1⟩, ⟨"E2", "Play", 2⟩], 3⟩
      : BookingResult).items.length
        = (⟨"c@test.com", [⟨"E1", 1⟩, ⟨"E2", 2⟩]⟩ : CreateBookingInput).items.length
      ∧ (⟨0, "c@test.com", .CONFIRMED, 0,
            [⟨"E1", "Classical Concert", 1⟩, ⟨"E2", "Play", 2⟩], 3⟩
          : BookingResult).totalTickets
        = ((⟨"c@test.com", [⟨"E1", 1⟩, ⟨"E2", 2⟩]⟩ : CreateBookingInput).items.map
            (fun it => it.quantity)).sum :=
  ⟨(c10_success_projection sample0 ⟨"c@test.com", [⟨"E1", 1⟩, ⟨"E2", 2⟩]⟩ none 0
      ⟨0, "c@test.com", .CONFIRMED, 0,
        [⟨"E1", "Classical Concert", 1⟩, ⟨"E2", "Play", 2⟩], 3⟩
      { events := [("E1", ⟨"Classical Concert", 10, 4⟩), ("E2", ⟨"Play", 4, 2⟩)]
        bookings := [⟨0, "c@test.com", .CONFIRMED, 0, none, [⟨"E1", 1⟩, ⟨"E2", 2⟩]⟩]
        nextId := 1 }
      (fun _ hk => nomatch hk) (by decide)).1,
    (c10_success_projection sample0 ⟨"c@test.com", [⟨"E1", 1⟩, ⟨"E2", 2⟩]⟩ none 0
      ⟨0, "c@test.com", .CONFIRMED, 0,
        [⟨"E1", "Classical Concert", 1⟩, ⟨"E2", "Play", 2⟩], 3⟩
      { events := [("E1", ⟨"Classical Concert", 10, 4⟩), ("E2", ⟨"Play", 4, 2⟩)]
        bookings := [⟨0, "c@test.com", .CONFIRMED, 0, none, [⟨"E1", 1⟩, ⟨"E2", 2⟩]⟩]
        nextId := 1 }
      (fun _ hk => nomatch hk) (by decide)).2.2⟩

/-! ## Claim C8 — schema accept-iff and route short-circuit -/

theorem dedup_length_iff {l : List String} :
    l.dedup.length = l.length ↔ l.Nodup := by
  constructor
  · intro h
    have hsub : l.dedup.Sublist l := List.dedup_sublist l
    have heq : l.dedup = l := hsub.eq_of_length h
    rw [← heq]
    exact List.nodup_dedup l
  · intro h
    rw [List.dedup_eq_self.mpr h]

/-- C8: `CreateBookingSchema` accepts a request exactly when the email
passes the email validator, items is non-empty with at most 20 entries,
every item's eventId passes the uuid validator and its quantity is an
integer in [1,3], and no two items share an eventId; and whenever the
schema rejects, the `POST /bookings` route replies 400 without invoking
`createBooking` — the state is untouched.  (Zod's `email()`/`uuid()`
string primitives are external library code, abstracted as the `emailOk`
and `uuidOk` parameters.) -/
theorem c8_schema_accept_iff (emailOk uuidOk : String → Bool) (req : RawRequest)
    (s : DBState) (now : Nat) :
    (createBookingSchemaCheck emailOk uuidOk req = true ↔
        (emailOk req.customerEmail = true
          ∧ req.items ≠ []
          ∧ req.items.length ≤ 20
          ∧ (∀ it ∈ req.items, uuidOk it.eventId = true ∧ it.quantity.isInt = true
              ∧ 1 ≤ it.quantity ∧ it.quantity ≤ 3)
          ∧ (req.items.map (fun it => it.eventId)).Nodup))
      ∧ (createBookingSchemaCheck emailOk uuidOk req = false →
          postBookings emailOk uuidOk req s now = (.validationError, s)) := by
  constructor
  · unfold createBookingSchemaCheck
    simp only [Bool.and_eq_true, decide_eq_true_eq, List.all_eq_true]
    constructor
    · rintro ⟨⟨⟨⟨hemail, hne⟩, hle⟩, hall⟩, hdedup⟩
      refine ⟨hemail, ?_, hle, ?_, dedup_length_iff.mp hdedup⟩
      · intro hnil
        rw [hnil] at hne
        simp at hne
      · intro it hit
        have := hall it hit
        unfold bookingItemCheck at this
        simp only [Bool.and_eq_true, decide_eq_true_eq] at this
        exact ⟨this.1.1.1, this.1.1.2, this.1.2, this.2⟩
    · rintro ⟨hemail, hne, hle, hall, hnd⟩
      refine ⟨⟨⟨⟨hemail, ?_⟩, hle⟩, ?_⟩, dedup_length_iff.mpr hnd⟩
      · cases hi : req.items with
        | nil => exact absurd hi hne
        | cons a l => simp [hi]
      · intro it hit
        obtain ⟨h1, h2, h3, h4⟩ := hall it hit
        unfold bookingItemCheck
        simp only [Bool.and_eq_true, decide_eq_true_eq]
        exact ⟨⟨⟨h1, h2⟩, h3⟩, h4⟩
  · intro h
    unfold postBookings
    rw [h]
    rfl

/-- C8 witness: a request with a duplicated eventId is rejected by the
schema, and the route replies 400 leaving the store untouched. -/
theorem c8_witness :
    postBookings (fun _ => true) (fun _ => true)
        ⟨"a@test.com", [⟨"E1", 1⟩, ⟨"E1", 2⟩]⟩ sample0 0
      = (.validationError, sample0) :=
  (c8_schema_accept_iff (fun _ => true) (fun _ => true)
    ⟨"a@test.com", [⟨"E1", 1⟩, ⟨"E1", 2⟩]⟩ sample0 0).2 (by decide)

/-! ## Claim C3 — concurrent no-oversell, serialized by the row lock -/

/-- A result that succeeded with a CONFIRMED booking. -/
def isConfirmedOk : Except BookingError BookingResult → Bool
  | .ok br => br.status == .CONFIRMED
  | .error _ => false

/-- A result that failed with an `InsufficientSeats` error. -/
def isInsufficientSeats : Except BookingError BookingResult → Bool
  | .error (.InsufficientSeats _ _ _) => true
  | _ => false

theorem map_const_replicate {α β : Type} (l : List α) (b : β) :
    l.map (fun _ => b) = List.replicate l.length b := by
  induction l with
  | nil => rfl
  | cons a l ih => simp [List.replicate_succ, ih]

theorem countP_replicate {α : Type} (p : α → Bool) (b : α) (n : Nat) :
    (List.replicate n b).countP p = if p b then n else 0 := by
  induction n with
  | zero => simp
  | succ m ih =>
    rw [List.replicate_succ, List.countP_cons, ih]
    by_cases h : p b <;> simp [h]

theorem runRequests_cons (s : DBState) (r : CreateBookingInput)
    (rest : List CreateBookingInput) (now : Nat) :
    runRequests s (r :: rest) now
      = ((createBooking s r none now).1
            :: (runRequests (createBooking s r none now).2 rest now).1,
          (runRequests (createBooking s r none now).2 rest now).2) := rfl

theorem createBooking_single_ok (s : DBState) (input : CreateBookingInput)
    (eid : String) (ev : Event) (q : Int) (now : Nat)
    (hit : input.items = [⟨eid, q⟩])
    (hfind : findEvent s.events eid = some ev) (hq : ¬ ev.availableSeats < q) :
    createBooking s input none now =
      (.ok (mkResult [⟨eid, ev.name, ev.availableSeats, q⟩]
          (newBooking s input none now)),
        { events := updateSeats s.events eid (fun a => a - q)
          bookings := newBooking s input none now :: s.bookings
          nextId := s.nextId + 1 }) := by
  have hval : validateItems s input.items
      = .ok [⟨eid, ev.name, ev.availableSeats, q⟩] := by
    rw [hit]
    simp [validateItems, hfind, hq]
  have htx := createBookingTx_of_ok none now hval
  rw [show createBooking s input none now = createBookingTx s input none now from rfl,
    htx]
  rfl

theorem createBooking_single_fail (s : DBState) (input : CreateBookingInput)
    (eid : String) (ev : Event) (q : Int) (now : Nat)
    (hit : input.items = [⟨eid, q⟩])
    (hfind : findEvent s.events eid = some ev) (hq : ev.availableSeats < q) :
    createBooking s input none now
      = (.error (.InsufficientSeats eid q ev.availableSeats), s) := by
  have hval : validateItems s input.items
      = .error (.InsufficientSeats eid q ev.availableSeats) := by
    rw [hit]
    simp [validateItems, hfind, hq]
  exact createBookingTx_of_error none now hval

theorem runRequests_fail_all (eid : String) (ev : Event) (now : Nat) :
    ∀ (reqs : List CreateBookingInput) (s : DBState),
      findEvent s.events eid = some ev → ev.availableSeats = 0 →
      (∀ r ∈ reqs, r.items = [⟨eid, 1⟩]) →
      runRequests s reqs now
        = (reqs.map (fun _ => .error (.InsufficientSeats eid 1 0)), s) := by
  intro reqs
  induction reqs with
  | nil => intro s _ _ _; rfl
  | cons r rest ih =>
    intro s hfind hav hitems
    have hcall : createBooking s r none now
        = (.error (.InsufficientSeats eid 1 0), s) := by
      have hstep := createBooking_single_fail s r eid ev 1 now
        (hitems r (List.mem_cons_self r rest)) hfind (by omega)
      rw [hav] at hstep
      exact hstep
    rw [runRequests_cons, hcall]
    show ((.error (.InsufficientSeats eid 1 0) : Except BookingError BookingResult)
        :: (runRequests s rest now).1, (runRequests s rest now).2) = _
    rw [ih s hfind hav (fun a ha => hitems a (List.mem_cons_of_mem _ ha))]
    rfl

/-- C3: on an event with 2 available seats, 10 requests of one seat each,
serialized in lock-acquisition order (the row lock's total order, spec
§5), end with exactly 2 CONFIRMED successes, exactly 8 InsufficientSeats
failures — each failing unit observing the post-decrement availability 0
left by the winners — and the event's final availableSeats 0. -/
theorem c3_concurrent_no_oversell (s : DBState) (eid : String) (ev : Event)
    (reqs : List CreateBookingInput) (now : Nat)
    (hfind : findEvent s.events eid = some ev)
    (hav : ev.availableSeats = 2)
    (hlen : reqs.length = 10)
    (hitems : ∀ r ∈ reqs, r.items = [⟨eid, 1⟩]) :
    (runRequests s reqs now).1.countP isConfirmedOk = 2
      ∧ (runRequests s reqs now).1.countP isInsufficientSeats = 8
      ∧ (∀ r ∈ (runRequests s reqs now).1.take 2,
          ∃ br, r = .ok br ∧ br.status = .CONFIRMED)
      ∧ (runRequests s reqs now).1.drop 2
        = List.replicate 8 (.error (.InsufficientSeats eid 1 0))
      ∧ findEvent (runRequests s reqs now).2.events eid
        = some { ev with availableSeats := 0 } := by
  cases reqs with
  | nil => simp at hlen
  | cons r1 rest1 =>
    cases rest1 with
    | nil => simp at hlen
    | cons r2 rest =>
      have hrlen : rest.length = 8 := by simpa using hlen
      have h1 : r1.items = [⟨eid, 1⟩] := hitems r1 (by simp)
      have h2 : r2.items = [⟨eid, 1⟩] := hitems r2 (by simp)
      have hrest : ∀ r ∈ rest, r.items = [⟨eid, 1⟩] :=
        fun r hr => hitems r (by simp [hr])
      have step1 := createBooking_single_ok s r1 eid ev 1 now h1 hfind (by omega)
      have hfind1 : findEvent (updateSeats s.events eid (fun a => a - 1)) eid
          = some { ev with availableSeats := ev.availableSeats - 1 } := by
        rw [findEvent_updateSeats, if_pos rfl, hfind]
        rfl
      have step2 := createBooking_single_ok
        ⟨updateSeats s.events eid (fun a => a - 1),
          newBooking s r1 none now :: s.bookings, s.nextId + 1⟩
        r2 eid { ev with availableSeats := ev.availableSeats - 1 } 1 now h2 hfind1
        (by
          show ¬ ev.availableSeats - 1 < 1
          omega)
      have hfind2 : findEvent
          (updateSeats (updateSeats s.events eid (fun a => a - 1)) eid
            (fun a => a - 1)) eid
          = some { ev with availableSeats := 0 } := by
        rw [findEvent_updateSeats, if_pos rfl, hfind1]
        exact congrArg some (by
          show ({ ev with availableSeats := ev.availableSeats - 1 - 1 } : Event)
            = { ev with availableSeats := 0 }
          rw [show ev.availableSeats - 1 - 1 = 0 from by omega])
      have hfail := runRequests_fail_all eid { ev with availableSeats := 0 } now rest
        ⟨updateSeats (updateSeats s.events eid (fun a => a - 1)) eid (fun a => a - 1),
          newBooking ⟨updateSeats s.events eid (fun a => a - 1),
              newBooking s r1 none now :: s.bookings, s.nextId + 1⟩ r2 none now
            :: newBooking s r1 none now :: s.bookings,
          s.nextId + 1 + 1⟩
        hfind2 rfl hrest
      have hrun : runRequests s (r1 :: r2 :: rest) now
          = (.ok (mkResult [⟨eid, ev.name, ev.availableSeats, 1⟩]
                (newBooking s r1 none now))
              :: .ok (mkResult [⟨eid, ev.name, ev.availableSeats - 1, 1⟩]
                (newBooking ⟨updateSeats s.events eid (fun a => a - 1),
                  newBooking s r1 none now :: s.bookings, s.nextId + 1⟩ r2 none now))
              :: rest.map (fun _ => .error (.InsufficientSeats eid 1 0)),
            ⟨updateSeats (updateSeats s.events eid (fun a => a - 1)) eid
                (fun a => a - 1),
              newBooking ⟨updateSeats s.events eid (fun a => a - 1),
                  newBooking s r1 none now :: s.bookings, s.nextId + 1⟩ r2 none now
                :: newBooking s r1 none now :: s.bookings,
              s.nextId + 1 + 1⟩) := by
        rw [runRequests_cons, step1]
        show (.ok (mkResult [⟨eid, ev.name, ev.availableSeats, 1⟩]
              (newBooking s r1 none now))
            :: (runRequests ⟨updateSeats s.events eid (fun a => a - 1),
                newBooking s r1 none now :: s.bookings, s.nextId + 1⟩
               (r2 :: rest) now).1,
            (runRequests ⟨updateSeats s.events eid (fun a => a - 1),
                newBooking s r1 none now :: s.bookings, s.nextId + 1⟩
              (r2 :: rest) now).2) = _
        rw [runRequests_cons, step2]
        show (.ok (mkResult [⟨eid, ev.name, ev.availableSeats, 1⟩]
              (newBooking s r1 none now))
            :: .ok (mkResult [⟨eid, ev.name, ev.availableSeats - 1, 1⟩]
              (newBooking ⟨updateSeats s.events eid (fun a => a - 1),
                newBooking s r1 none now :: s.bookings, s.nextId + 1⟩ r2 none now))
            :: (runRequests ⟨updateSeats (updateSeats s.events eid (fun a => a - 1))
                  eid (fun a => a - 1),
                newBooking ⟨updateSeats s.events eid (fun a => a - 1),
                    newBooking s r1 none now :: s.bookings, s.nextId + 1⟩ r2 none now
                  :: newBooking s r1 none now :: s.bookings,
                s.nextId + 1 + 1⟩ rest now).1,
            (runRequests ⟨updateSeats (updateSeats s.events eid (fun a => a - 1))
                  eid (fun a => a - 1),
                newBooking ⟨updateSeats s.events eid (fun a => a - 1),
                    newBooking s r1 none now :: s.bookings, s.nextId + 1⟩ r2 none now
                  :: newBooking s r1 none now :: s.bookings,
                s.nextId + 1 + 1⟩ rest now).2) = _
        rw [hfail]
      refine ⟨?_, ?_, ?_, ?_, ?_⟩
      · rw [hrun]
        simp [List.countP_cons, map_const_replicate, countP_replicate, hrlen,
          isConfirmedOk, isInsufficientSeats, mkResult, newBooking]
      · rw [hrun]
        simp [List.countP_cons, map_const_replicate, countP_replicate, hrlen,
          isConfirmedOk, isInsufficientSeats, mkResult, newBooking]
      · intro r hr
        rw [hrun] at hr
        simp only [List.take] at hr
        rcases List.mem_cons.mp hr with hA | hr2
        · exact ⟨_, hA, rfl⟩
        · rcases List.mem_cons.mp hr2 with hB | hr3
          · exact ⟨_, hB, rfl⟩
          · simp at hr3
      · rw [hrun]
        show rest.map (fun _ =>
            (.error (.InsufficientSeats eid 1 0) : Except BookingError BookingResult))
          = List.replicate 8 (.error (.InsufficientSeats eid 1 0))
        rw [map_const_replicate, hrlen]
      · rw [hrun]
        exact hfind2

/-- The seeded concurrency-test store: one event with 2 available seats. -/
def sampleC3 : DBState :=
  { events := [("E1", ⟨"Classical Concert", 10, 2⟩)], bookings := [], nextId := 0 }

/-- C3 witness: the concrete stress-test — 10 one-seat requests against 2
available seats — run through the theorem. -/
theorem c3_witness :
    (runRequests sampleC3
        (List.replicate 10 ⟨"load@test.com", [⟨"E1", 1⟩]⟩) 0).1.countP
        isConfirmedOk = 2
      ∧ (runRequests sampleC3
          (List.replicate 10 ⟨"load@test.com", [⟨"E1", 1⟩]⟩) 0).1.countP
          isInsufficientSeats = 8
      ∧ (∀ r ∈ (runRequests sampleC3
            (List.replicate 10 ⟨"load@test.com", [⟨"E1", 1⟩]⟩) 0).1.take 2,
          ∃ br, r = .ok br ∧ br.status = .CONFIRMED)
      ∧ (runRequests sampleC3
          (List.replicate 10 ⟨"load@test.com", [⟨"E1", 1⟩]⟩) 0).1.drop 2
        = List.replicate 8 (.error (.InsufficientSeats "E1" 1 0))
      ∧ findEvent (runRequests sampleC3
            (List.replicate 10 ⟨"load@test.com", [⟨"E1", 1⟩]⟩) 0).2.events "E1"
        = some ⟨"Classical Concert", 10, 0⟩ :=
  c3_concurrent_no_oversell sampleC3 "E1" ⟨"Classical Concert", 10, 2⟩
    (List.replicate 10 ⟨"load@test.com", [⟨"E1", 1⟩]⟩) 0
    (by decide) (by decide) (by decide) (by decide)

/-! ## Claim C1 — the seat invariant holds at every observable point -/

/-- C1: starting from any state satisfying the ledger invariant — the
seat invariant together with the claim's precondition that every
CONFIRMED booking's decrements are recorded (so cancels only restore
recorded decrements), plus the store-enforced key/id uniqueness — any
sequence of `createBooking` operations with schema-valid inputs
(quantities in [1,3], no duplicate eventIds, non-empty) and arbitrary
`cancelBooking` operations preserves the ledger invariant, and therefore
`0 ≤ availableSeats ≤ totalSeats` holds for every event row at every
observable point (after every prefix of the sequence). -/
theorem c1_seat_invariant_every_point (s : DBState) (ops : List Op)
    (hInv : LedgerInv s) (hvalid : ∀ op ∈ ops, OpValid op) :
    ∀ pre suf, ops = pre ++ suf →
      LedgerInv (runOps s pre) ∧ SeatInv (runOps s pre) := by
  intro pre suf heq
  have hpre : ∀ op ∈ pre, OpValid op := by
    intro op hop
    exact hvalid op (heq ▸ List.mem_append.mpr (Or.inl hop))
  have hL : LedgerInv (runOps s pre) := ledgerInv_runOps hInv hpre
  exact ⟨hL, seatInv_of_ledgerInv hL⟩

/-- C1 witness: from the fixture store (decrements recorded), run a
schema-valid create followed by a cancel; after the one-op prefix the
ledger and seat invariants hold. -/
theorem c1_witness :
    LedgerInv (runOps sampleK [Op.create ⟨"c@test.com", [⟨"E2", 3⟩]⟩ none 9])
      ∧ SeatInv (runOps sampleK [Op.create ⟨"c@test.com", [⟨"E2", 3⟩]⟩ none 9]) :=
  c1_seat_invariant_every_point sampleK
    [Op.create ⟨"c@test.com", [⟨"E2", 3⟩]⟩ none 9, Op.cancel 0]
    (by decide)
    (by
      intro op hop
      rcases List.mem_cons.mp hop with h | h
      · rw [h]
        exact ⟨by decide, by decide, by decide⟩
      · simp only [List.mem_singleton] at h
        rw [h]
        trivial)
    [Op.create ⟨"c@test.com", [⟨"E2", 3⟩]⟩ none 9] [Op.cancel 0] rfl
